import Mathlib

/-!
Shallow embedding of the ethersphere feeds package (topic derivation,
feed serialization, address checksum text form, recoverable signatures
and the temporal lookup probe), with theorems settling the claims of the
specification against the code.

Bytes are modelled as natural numbers (a Go byte is < 256; theorems add
that bound as a hypothesis where a claim depends on it) and Go byte
slices as lists of naturals.  Go strings enter the package only as byte
slices, so they are lists of naturals too (ASCII codes).
-/

namespace Feeds

/-- Semantics of Go `copy(dst, src)`: the first
`min src.length dst.length` bytes of `dst` are overwritten with those of
`src`; the rest of `dst` is kept, and the result keeps the length of
`dst`. -/
def goCopy (dst src : List Nat) : List Nat :=
  src.take dst.length ++ dst.drop (min src.length dst.length)

/-- Semantics of the Go slice assignment `copy(dst[lo:hi], src)` for an
in-range slice `lo ≤ hi ≤ dst.length`. -/
def sliceWrite (dst : List Nat) (lo hi : Nat) (src : List Nat) : List Nat :=
  dst.take lo ++ goCopy ((dst.drop lo).take (hi - lo)) src ++ dst.drop hi

/-- Error taxonomy of the package: `ErrInvalidValue` raised by
`NewErrorf` either with expected/actual lengths (feed serialization) or
with the fixed message of `Topic.FromHex`; the advisory
`ErrTopicTooLong`; `ErrNotFound` of the lookup; and the signature
failures (wrong signature length, failed compact recovery), both mapped
to the InvalidSignature taxon of the specification. -/
inductive FeedError where
  | invalidValue (expected actual : Nat)
  | invalidValueDecode
  | topicTooLong
  | invalidSignature
  | notFound
  deriving DecidableEq, Repr

/-- `TopicLength` of the source (= `ChunkAddressLength` = 32). -/
def TopicLength : Nat := 32

/-- `AddressLength` of the source (20). -/
def AddressLength : Nat := 20

/-- `XORBytes(dst, a, b)`.  Modelled from the spec: the helper is
referenced by the source but its definition is not under src; per the
specification the two buffers are XOR-merged over their common length
`n = min a.length b.length`, writing `a[i] XOR b[i]` into `dst[i]` for
`i < n` and leaving the bytes of `dst` from `n` on unchanged. -/
def xorBytes (dst a b : List Nat) : List Nat :=
  (List.zipWith Nat.xor a b).take dst.length ++
    dst.drop (min a.length b.length)

/-- `NewTopic(name, relatedContent)` from the source: start from a
zeroed 32-byte topic; when `relatedContent` is non-nil copy its first
`min length 32` bytes in, flagging `ErrTopicTooLong` when it is longer
than 32; then XOR the (truncated to 32) name bytes in, flagging
`ErrTopicTooLong` when the name is longer than 32.  `none` models a nil
Go slice and `some` a non-nil one.  Returns the topic bytes and the
error slot. -/
def newTopic (name : List Nat) (relatedContent : Option (List Nat)) :
    List Nat × Option FeedError :=
  let withRel : List Nat × Option FeedError :=
    match relatedContent with
    | none => (List.replicate TopicLength 0, none)
    | some rc =>
        let contentLength := min rc.length TopicLength
        (goCopy (List.replicate TopicLength 0) (rc.take contentLength),
         if rc.length > TopicLength then some .topicTooLong else none)
  let nameLength := min name.length TopicLength
  (xorBytes withRel.1 withRel.1 (name.take nameLength),
   if name.length > TopicLength then some .topicTooLong else withRel.2)

/-- `Topic.Name(relatedContent)` from the source: XOR the topic against
the (truncated) related content when the latter is non-nil, then cut at
the first zero byte (or keep everything when there is none). -/
def topicName (t : List Nat) (relatedContent : Option (List Nat)) :
    List Nat :=
  let nameBytes : List Nat :=
    match relatedContent with
    | none => t
    | some rc => xorBytes t t (rc.take (min rc.length TopicLength))
  nameBytes.takeWhile (fun b => b != 0)

/-- Value of one ASCII hex digit, as accepted by Go
`encoding/hex.DecodeString` (digits, lowercase and uppercase letters). -/
def hexDigitVal (c : Nat) : Option Nat :=
  if 48 ≤ c ∧ c ≤ 57 then some (c - 48)
  else if 97 ≤ c ∧ c ≤ 102 then some (c - 87)
  else if 65 ≤ c ∧ c ≤ 70 then some (c - 55)
  else none

/-- Go `encoding/hex.DecodeString`: decodes pairs of hex digits; an odd
length or an invalid digit is an error (`none`). -/
def hexDecode : List Nat → Option (List Nat)
  | [] => some []
  | [_] => none
  | c1 :: c2 :: rest =>
      match hexDigitVal c1, hexDigitVal c2, hexDecode rest with
      | some h, some l, some bs => some ((16 * h + l) :: bs)
      | _, _, _ => none

/-- `Topic.FromHex(h)` from the source: decode the hex string; when
decoding fails or the decoded length differs from the length of the
receiver (32), return the `ErrInvalidValue` decode error and leave the
receiver untouched; otherwise copy the bytes into the receiver.  Result
is (error slot, new receiver value). -/
def topicFromHex (t : List Nat) (h : List Nat) :
    Option FeedError × List Nat :=
  match hexDecode h with
  | none => (some .invalidValueDecode, t)
  | some bs =>
      if bs.length ≠ t.length then (some .invalidValueDecode, t)
      else (none, goCopy t bs)

/-- `Feed` from the source: a topic and the user address, here as the
raw byte lists ( theorems carry the 32- and 20-byte length facts). -/
structure Feed where
  topic : List Nat
  user : List Nat
  deriving DecidableEq, Repr

/-- `feedLength` of the source: Topic(32) followed by User(20). -/
def feedLength : Nat := TopicLength + AddressLength

/-- `Feed.binaryPut(serializedData)` from the source: reject any buffer
whose length is not 52 with `ErrInvalidValue` carrying expected and
actual lengths, leaving the buffer untouched; otherwise copy the topic
into bytes [0,32) and the user address into bytes [32,52).  Result is
(error slot, buffer after the call). -/
def binaryPut (f : Feed) (buf : List Nat) :
    Option FeedError × List Nat :=
  if buf.length ≠ feedLength then
    (some (.invalidValue feedLength buf.length), buf)
  else
    let b1 := sliceWrite buf 0 TopicLength (f.topic.take TopicLength)
    let b2 := sliceWrite b1 TopicLength (TopicLength + AddressLength) f.user
    (none, b2)

/-- `Feed.binaryGet(serializedData)` from the source: reject any buffer
whose length is not 52 with `ErrInvalidValue` carrying expected and
actual lengths, leaving the receiver untouched; otherwise copy bytes
[0,32) into the topic and bytes [32,52) into the user address.  Result
is (error slot, receiver after the call). -/
def binaryGet (f : Feed) (buf : List Nat) :
    Option FeedError × Feed :=
  if buf.length ≠ feedLength then
    (some (.invalidValue feedLength buf.length), f)
  else
    let t := goCopy f.topic ((buf.drop 0).take TopicLength)
    let u := goCopy f.user ((buf.drop TopicLength).take AddressLength)
    (none, ⟨t, u⟩)

/-- Reading the first 8 bytes of a buffer as an unsigned 64-bit integer
on a little-endian machine (byte 0 least significant): one of the two
machine realizations of the source expression
`*(*uint64)(unsafe.Pointer(&hash[0]))`. -/
def le64 (bytes : List Nat) : Nat :=
  (bytes.take 8).foldr (fun b acc => b + 256 * acc) 0

/-- Reading the first 8 bytes of a buffer as an unsigned 64-bit integer
on a big-endian machine (byte 0 most significant): the other machine
realization of the source expression
`*(*uint64)(unsafe.Pointer(&hash[0]))`. -/
def be64 (bytes : List Nat) : Nat :=
  (bytes.take 8).foldl (fun acc b => acc * 256 + b) 0

/-- `Feed.mapKey()` from the source: serialize the feed into a fresh
52-byte buffer with `binaryPut` (its error slot is ignored by the
source), hash the buffer with the pooled hash function, and reinterpret
the first 8 bytes of the digest as an unsigned 64-bit integer in the
byte order of the machine.  The hash function (the pooled hasher, not
under src) and the byte-order reinterpretation are parameters. -/
def mapKey (byteOrder : List Nat → Nat)
    (hasher : List Nat → List Nat) (f : Feed) : Nat :=
  let serializedData := List.replicate feedLength 0
  let put := binaryPut f serializedData
  byteOrder ((hasher put.2).take 8)

/-- One lowercase ASCII hex digit as emitted by Go
`encoding/hex.EncodeToString` (table "0123456789abcdef"), for a nibble
value below 16. -/
def hexCharOfNibble (n : Nat) : Nat :=
  if n < 10 then 48 + n else 87 + n

/-- Go `encoding/hex.EncodeToString` on a byte slice: two lowercase hex
characters per byte, high nibble first. -/
def hexEncode (bytes : List Nat) : List Nat :=
  bytes.flatMap (fun b => [hexCharOfNibble (b / 16), hexCharOfNibble (b % 16)])

/-- `Address.Hex()` from the source: lowercase-hex-encode the 20 raw
bytes, Keccak-256 hash that ASCII string (the hash function, an
external library, is a parameter), then for each character `c` at
position `i`, take hash byte `i/2` shifted right by 4 when `i` is even
and masked to its low 4 bits when `i` is odd, and subtract 32 from `c`
exactly when `c > '9'` and that nibble is `> 7`. -/
def addressHex (keccak : List Nat → List Nat) (a : List Nat) : List Nat :=
  let unchecksummed := hexEncode a
  let h := keccak unchecksummed
  (List.range unchecksummed.length).map (fun i =>
    let c := unchecksummed.getD i 0
    let hashByte := h.getD (i / 2) 0
    let nibble := if i % 2 = 0 then hashByte / 16 else hashByte % 16
    if c > 57 ∧ nibble > 7 then c - 32 else c)

/-- Outcome of a Go method that can return normally, return an error, or
panic. -/
inductive GoOutcome (α : Type) where
  | ok (val : α)
  | err
  | panicked
  deriving DecidableEq, Repr

/-- The body of `Address.UnmarshalJSON` after the JSON layer has
produced the string `s`: hex-decode `s`; on a decode error return the
error; otherwise evaluate `v[:AddressLength]`, which panics (slice
bounds out of range) whenever fewer than 20 bytes were decoded, and
else copy the first 20 decoded bytes into the receiver. -/
def unmarshalAddressHex (a s : List Nat) : GoOutcome (List Nat) :=
  match hexDecode s with
  | none => .err
  | some v =>
      if v.length < AddressLength then .panicked
      else .ok (goCopy a (v.take AddressLength))

/-- `Address.UnmarshalJSON(data)` from the source: unmarshal `data` into
a string with the external JSON library (a parameter returning `none`
on malformed JSON), then run the hex stage on the string. -/
def unmarshalAddressJSON (jsonStr : List Nat → Option (List Nat))
    (a data : List Nat) : GoOutcome (List Nat) :=
  match jsonStr data with
  | none => .err
  | some s => unmarshalAddressHex a s

/-- The external secp256k1 compact-signature library (btcec), abstracted
over the key types: `signCompact k d` produces the 65-byte compact
signature with the recovery byte first (or fails), `recoverCompact sig d`
reconstructs the public key from a compact signature (or fails), and
`pubOf` is the public key of a private key.  The library contract —
recovering the compact signature of a key yields the public key of that
key, and compact signatures are 65 bytes — enters the theorems as
hypotheses. -/
structure SecpLib (PrivKey PubKey : Type) where
  signCompact : PrivKey → List Nat → Option (List Nat)
  recoverCompact : List Nat → List Nat → Option PubKey
  pubOf : PrivKey → PubKey

/-- `GenericSigner.Sign` / `GenericSigner.sign` from the source: call
`SignCompact` and convert to the ethereum format by moving the leading
recovery byte to the end (`v := sig[0]; copy(sig, sig[1:]);
sig[64] = v`, i.e. `raw.drop 1 ++ raw.take 1` for the 65-byte compact
signature). -/
def Sign {κ π : Type} (L : SecpLib κ π) (k : κ) (d : List Nat) :
    Option (List Nat) :=
  match L.signCompact k d with
  | none => none
  | some raw => some (raw.drop 1 ++ raw.take 1)

/-- `Recover(signature, data)` from the source: reject any signature
whose length is not 65 (invalid signature, before any curve work);
otherwise rebuild the btcec format by moving the trailing recovery byte
to the front (`btcsig[0] = signature[64]; copy(btcsig[1:], signature)`,
i.e. `signature.drop 64 ++ signature.take 64` for the guarded 65-byte
signature) and run `RecoverCompact`, whose failure is also an invalid
signature. -/
def Recover {κ π : Type} (L : SecpLib κ π) (signature data : List Nat) :
    Except FeedError π :=
  if signature.length ≠ 65 then .error .invalidSignature
  else
    let btcsig := signature.drop 64 ++ signature.take 64
    match L.recoverCompact btcsig data with
    | none => .error .invalidSignature
    | some p => .ok p

/-- Go `common.BytesToAddress` of the ethereum library: keep the last 20
bytes when longer, left-pad with zeros when shorter. -/
def bytesToAddress (b : List Nat) : List Nat :=
  let b2 := if b.length > AddressLength then b.drop (b.length - AddressLength) else b
  List.replicate (AddressLength - b2.length) 0 ++ b2

/-- `PubkeyToAddress` from the source: marshal the public key to its
uncompressed form (the curve marshalling, an external library, is a
parameter), drop its leading format byte, Keccak-256 hash the rest and
keep the last 20 bytes of the 32-byte digest
(`BytesToAddress(Keccak256(pubBytes[1:])[12:])`). -/
def pubkeyToAddress {π : Type} (keccak : List Nat → List Nat)
    (marshal : π → List Nat) (p : π) : List Nat :=
  let pubBytes := marshal p
  bytesToAddress ((keccak (pubBytes.drop 1)).drop 12)

/-- A feed update record as seen by the lookup: only its embedded
timestamp matters to the probe decision. -/
structure UpdateRequest where
  time : Nat
  deriving DecidableEq, Repr

/-- The probe callback of `Lookup`.  Modelled from the spec: the src
fragment of `Lookup` has its fetch-error handling commented out and
decodes an undefined variable, so per the specification a failed fetch
(`none` content) yields absent, content that fails to decode yields
absent, a decoded record with `Time > timeLimit` yields absent, and
only a decoded record with `Time ≤ timeLimit` is returned as a
candidate.  The decoder (`Request.fromChunk`) is a parameter. -/
def lookupProbe {γ : Type} (decode : γ → Option UpdateRequest)
    (timeLimit : Nat) (fetched : Option γ) : Option UpdateRequest :=
  match fetched with
  | none => none
  | some c =>
      match decode c with
      | none => none
      | some r => if r.time ≤ timeLimit then some r else none

/-- The tail of `Lookup` from the source: when the search strategy
finishes without any candidate (`request == nil`) the lookup fails with
`ErrNotFound`; otherwise the candidate is returned. -/
def lookupFinish (res : Option UpdateRequest) :
    Except FeedError UpdateRequest :=
  match res with
  | none => .error .notFound
  | some r => .ok r

/-! ### Helper lemmas: byte-indexed views of the buffer operations -/

/-- Byte `i` of a buffer, with 0 beyond its end (the padding byte of the
package). -/
def nthByte (l : List Nat) (i : Nat) : Nat := l.getD i 0

theorem nthByte_of_le {l : List Nat} {i : Nat} (h : l.length ≤ i) :
    nthByte l i = 0 :=
  List.getD_eq_default l 0 h

theorem nthByte_append (a b : List Nat) (i : Nat) :
    nthByte (a ++ b) i =
      if i < a.length then nthByte a i else nthByte b (i - a.length) := by
  simp only [nthByte, List.getD_eq_getElem?_getD, List.getElem?_append]
  split <;> rfl

theorem nthByte_take (l : List Nat) (n i : Nat) :
    nthByte (l.take n) i = if i < n then nthByte l i else 0 := by
  simp only [nthByte, List.getD_eq_getElem?_getD, List.getElem?_take]
  split <;> rfl

theorem nthByte_drop (l : List Nat) (n i : Nat) :
    nthByte (l.drop n) i = nthByte l (n + i) := by
  simp only [nthByte, List.getD_eq_getElem?_getD, List.getElem?_drop]

theorem nthByte_replicate_zero (n i : Nat) :
    nthByte (List.replicate n 0) i = 0 := by
  simp only [nthByte, List.getD_eq_getElem?_getD, List.getElem?_replicate]
  split <;> rfl

theorem nthByte_zipWith_xor (a b : List Nat) (i : Nat) :
    nthByte (List.zipWith Nat.xor a b) i =
      if i < min a.length b.length then nthByte a i ^^^ nthByte b i
      else 0 := by
  simp only [nthByte, List.getD_eq_getElem?_getD, List.getElem?_zipWith]
  by_cases ha : i < a.length <;> by_cases hb : i < b.length
  · rw [List.getElem?_eq_getElem ha, List.getElem?_eq_getElem hb]
    simp [Nat.lt_min.mpr ⟨ha, hb⟩]
    rfl
  · rw [List.getElem?_eq_none (Nat.le_of_not_lt hb)]
    have : ¬ i < min a.length b.length := by omega
    cases a[i]? <;> simp [this]
  · rw [List.getElem?_eq_none (Nat.le_of_not_lt ha)]
    have : ¬ i < min a.length b.length := by omega
    simp [this]
  · rw [List.getElem?_eq_none (Nat.le_of_not_lt ha)]
    have : ¬ i < min a.length b.length := by omega
    simp [this]

theorem goCopy_length (dst src : List Nat) :
    (goCopy dst src).length = dst.length := by
  simp only [goCopy, List.length_append, List.length_take, List.length_drop]
  omega

theorem xorBytes_self_length (t b : List Nat) (hb : b.length ≤ t.length) :
    (xorBytes t t b).length = t.length := by
  simp only [xorBytes, List.length_append, List.length_take,
    List.length_drop, List.length_zipWith]
  omega

theorem xorBytes_self_nthByte (t b : List Nat)
    (hb : b.length ≤ t.length) (i : Nat) :
    nthByte (xorBytes t t b) i = nthByte t i ^^^ nthByte b i := by
  have hmin : min t.length b.length = b.length := Nat.min_eq_right hb
  have hzlen : (List.zipWith Nat.xor t b).length = b.length := by
    rw [List.length_zipWith]; omega
  have htake : (List.zipWith Nat.xor t b).take t.length =
      List.zipWith Nat.xor t b :=
    List.take_of_length_le (by omega)
  rw [xorBytes, hmin, htake, nthByte_append, hzlen]
  by_cases hi : i < b.length
  · rw [if_pos hi, nthByte_zipWith_xor, if_pos (by omega)]
  · rw [if_neg hi, nthByte_drop,
      Nat.add_sub_cancel' (Nat.le_of_not_lt hi),
      nthByte_of_le (Nat.le_of_not_lt hi), Nat.xor_zero]

theorem goCopy_replicate_zero_nthByte (n : Nat) (src : List Nat)
    (h : src.length ≤ n) (i : Nat) :
    nthByte (goCopy (List.replicate n 0) src) i = nthByte src i := by
  have hlen : (List.replicate n 0 : List Nat).length = n :=
    List.length_replicate n 0
  have hmin : min src.length n = src.length := Nat.min_eq_left h
  have htlen : (src.take n).length = src.length := by
    rw [List.length_take]; omega
  rw [goCopy, hlen, hmin, nthByte_append, htlen]
  by_cases hi : i < src.length
  · rw [if_pos hi, nthByte_take, if_pos (by omega)]
  · rw [if_neg hi, List.drop_replicate, nthByte_replicate_zero,
      nthByte_of_le (Nat.le_of_not_lt hi)]

theorem list_ext_nthByte {l₁ l₂ : List Nat}
    (hlen : l₁.length = l₂.length)
    (h : ∀ i, nthByte l₁ i = nthByte l₂ i) : l₁ = l₂ := by
  apply List.ext_getElem hlen
  intro n h₁ h₂
  have := h n
  rwa [nthByte, nthByte, List.getD_eq_getElem _ _ h₁,
    List.getD_eq_getElem _ _ h₂] at this

theorem takeWhile_append_zero (name rest : List Nat)
    (h : ∀ b ∈ name, b ≠ 0) :
    (name ++ 0 :: rest).takeWhile (fun b => b != 0) = name := by
  induction name with
  | nil => simp [List.takeWhile]
  | cons a as ih =>
      have ha : a ≠ 0 := h a (List.mem_cons_self a as)
      have has : ∀ b ∈ as, b ≠ 0 := fun b hb => h b (List.mem_cons_of_mem a hb)
      simp only [List.cons_append, List.takeWhile]
      rw [show (a != 0) = true by simpa using ha]
      simp [ih has]

theorem xor_xor_cancel (a b : Nat) : (a ^^^ b) ^^^ a = b := by
  rw [Nat.xor_comm a b, Nat.xor_assoc, Nat.xor_self, Nat.xor_zero]

theorem padded_takeWhile (L name : List Nat)
    (hz : ∀ b ∈ name, b ≠ 0) (hlen : name.length < L.length)
    (h : ∀ i, nthByte L i = nthByte name i) :
    L.takeWhile (fun b => b != 0) = name := by
  have hpad : L = name ++ List.replicate (L.length - name.length) 0 := by
    apply list_ext_nthByte
    · simp only [List.length_append, List.length_replicate]; omega
    · intro i
      rw [h i, nthByte_append]
      by_cases hi : i < name.length
      · rw [if_pos hi]
      · rw [if_neg hi, nthByte_replicate_zero,
          nthByte_of_le (Nat.le_of_not_lt hi)]
  obtain ⟨k, hk⟩ : ∃ k, L.length - name.length = k + 1 :=
    ⟨L.length - name.length - 1, by omega⟩
  rw [hpad, hk, List.replicate_succ]
  exact takeWhile_append_zero name _ hz

/-! ### Theorems for the claims -/

/-- Claim C2: for every name with no embedded zero byte and length
strictly below 32 and every related content of length at most 32
(including nil), `Topic.Name` applied to the topic built by `NewTopic`
from that name and related content, with the same related content,
returns exactly the original name. -/
theorem topic_name_roundtrip (name : List Nat)
    (relatedContent : Option (List Nat))
    (hz : ∀ b ∈ name, b ≠ 0) (hlen : name.length < TopicLength)
    (hrel : (relatedContent.getD []).length ≤ TopicLength) :
    topicName (newTopic name relatedContent).1 relatedContent = name := by
  have hname32 : name.length ≤ TopicLength := Nat.le_of_lt hlen
  have htkn : name.take (min name.length TopicLength) = name := by
    rw [Nat.min_eq_left hname32, List.take_length]
  cases relatedContent with
  | none =>
      have h1 : (newTopic name none).1 =
          xorBytes (List.replicate TopicLength 0)
            (List.replicate TopicLength 0)
            (name.take (min name.length TopicLength)) := rfl
      have h2 : topicName (newTopic name none).1 none =
          ((newTopic name none).1).takeWhile (fun b => b != 0) := rfl
      rw [h2, h1, htkn]
      apply padded_takeWhile _ _ hz
      · rw [xorBytes_self_length _ _ (by simp [hname32])]
        simpa using hlen
      · intro i
        rw [xorBytes_self_nthByte _ _ (by simp [hname32]),
          nthByte_replicate_zero, Nat.zero_xor]
  | some r =>
      have hr : r.length ≤ TopicLength := by simpa using hrel
      have htkr : r.take (min r.length TopicLength) = r := by
        rw [Nat.min_eq_left hr, List.take_length]
      have h1 : (newTopic name (some r)).1 =
          xorBytes
            (goCopy (List.replicate TopicLength 0)
              (r.take (min r.length TopicLength)))
            (goCopy (List.replicate TopicLength 0)
              (r.take (min r.length TopicLength)))
            (name.take (min name.length TopicLength)) := rfl
      have h2 : ∀ t : List Nat, topicName t (some r) =
          (xorBytes t t (r.take (min r.length TopicLength))).takeWhile
            (fun b => b != 0) := fun t => rfl
      rw [h2, h1, htkn, htkr]
      have hWlen : (goCopy (List.replicate TopicLength 0) r).length =
          TopicLength := by
        rw [goCopy_length, List.length_replicate]
      have hWnth : ∀ i, nthByte (goCopy (List.replicate TopicLength 0) r) i =
          nthByte r i := goCopy_replicate_zero_nthByte _ _ hr
      have htlen :
          (xorBytes (goCopy (List.replicate TopicLength 0) r)
            (goCopy (List.replicate TopicLength 0) r) name).length =
          TopicLength := by
        rw [xorBytes_self_length _ _ (by rw [hWlen]; exact hname32), hWlen]
      have htnth : ∀ i,
          nthByte (xorBytes (goCopy (List.replicate TopicLength 0) r)
            (goCopy (List.replicate TopicLength 0) r) name) i =
          nthByte r i ^^^ nthByte name i := by
        intro i
        rw [xorBytes_self_nthByte _ _ (by rw [hWlen]; exact hname32), hWnth]
      apply padded_takeWhile _ _ hz
      · rw [xorBytes_self_length _ _ (by rw [htlen]; exact hr), htlen]
        exact hlen
      · intro i
        rw [xorBytes_self_nthByte _ _ (by rw [htlen]; exact hr), htnth,
          xor_xor_cancel]

/-- Witness for C2 at the test vector of the repository: the name
"test-topic" and the 32-byte related-content pattern. -/
theorem topic_name_roundtrip_witness :
    (∀ b ∈ ([116, 101, 115, 116, 45, 116, 111, 112, 105, 99] : List Nat),
        b ≠ 0) ∧
    ([116, 101, 115, 116, 45, 116, 111, 112, 105, 99] : List Nat).length <
        TopicLength ∧
    topicName
      (newTopic [116, 101, 115, 116, 45, 116, 111, 112, 105, 99]
        (some [171, 205, 239, 1, 35, 69, 103, 137,
               171, 205, 239, 1, 35, 69, 103, 137,
               171, 205, 239, 1, 35, 69, 103, 137,
               171, 205, 239, 1, 35, 69, 103, 137])).1
      (some [171, 205, 239, 1, 35, 69, 103, 137,
             171, 205, 239, 1, 35, 69, 103, 137,
             171, 205, 239, 1, 35, 69, 103, 137,
             171, 205, 239, 1, 35, 69, 103, 137]) =
      [116, 101, 115, 116, 45, 116, 111, 112, 105, 99] :=
  ⟨by decide, by decide,
    topic_name_roundtrip _ _ (by decide) (by decide) (by decide)⟩

theorem goCopy_exact (dst src : List Nat) (h : dst.length = src.length) :
    goCopy dst src = src := by
  rw [goCopy, h, List.take_length, Nat.min_self, ← h, List.drop_length,
    List.append_nil]

theorem sliceWrite_head_block (buf src : List Nat) (n : Nat)
    (hn : n ≤ buf.length) (hsrc : src.length = n) :
    sliceWrite buf 0 n src = src ++ buf.drop n := by
  rw [sliceWrite, List.take_zero, List.drop_zero, Nat.sub_zero,
    List.nil_append,
    goCopy_exact _ _ (by rw [List.length_take, hsrc, Nat.min_eq_left hn])]

theorem sliceWrite_tail_block (a b src : List Nat)
    (hb : src.length = b.length) :
    sliceWrite (a ++ b) a.length (a.length + b.length) src = a ++ src := by
  rw [sliceWrite, List.take_left, List.drop_left, Nat.add_sub_cancel_left,
    List.take_length, goCopy_exact b src hb.symm,
    ← List.length_append, List.drop_length, List.append_nil]

theorem binaryPut_ok (f : Feed) (buf : List Nat)
    (ht : f.topic.length = TopicLength)
    (hu : f.user.length = AddressLength)
    (hbuf : buf.length = feedLength) :
    binaryPut f buf = (none, f.topic ++ f.user) := by
  have htk : f.topic.take TopicLength = f.topic := by
    rw [← ht, List.take_length]
  have h2 : sliceWrite buf 0 TopicLength (f.topic.take TopicLength) =
      f.topic ++ buf.drop TopicLength := by
    rw [htk]
    exact sliceWrite_head_block buf f.topic TopicLength
      (by rw [hbuf]; decide) ht
  have hd : (buf.drop TopicLength).length = AddressLength := by
    rw [List.length_drop, hbuf]; rfl
  have h3 : sliceWrite (f.topic ++ buf.drop TopicLength) TopicLength
      (TopicLength + AddressLength) f.user = f.topic ++ f.user := by
    have hgen := sliceWrite_tail_block f.topic (buf.drop TopicLength)
      f.user (by rw [hu, hd])
    rwa [ht, hd] at hgen
  have hne : ¬ buf.length ≠ feedLength := fun hne => hne hbuf
  rw [binaryPut, if_neg hne]
  simp only []
  rw [h2, h3]

theorem binaryGet_ok (f g : Feed)
    (ht : f.topic.length = TopicLength)
    (hu : f.user.length = AddressLength)
    (hgt : g.topic.length = TopicLength)
    (hgu : g.user.length = AddressLength) :
    binaryGet g (f.topic ++ f.user) = (none, f) := by
  have hlen : (f.topic ++ f.user).length = feedLength := by
    rw [List.length_append, ht, hu]; rfl
  have hne : ¬ (f.topic ++ f.user).length ≠ feedLength := fun h => h hlen
  have htk : ((f.topic ++ f.user).drop 0).take TopicLength = f.topic := by
    rw [List.drop_zero, ← ht, List.take_left]
  have huk : ((f.topic ++ f.user).drop TopicLength).take AddressLength =
      f.user := by
    rw [← ht, List.drop_left, ← hu, List.take_length]
  rw [binaryGet, if_neg hne]
  simp only []
  rw [htk, huk, goCopy_exact g.topic f.topic (by rw [hgt, ht]),
    goCopy_exact g.user f.user (by rw [hgu, hu])]

/-- Claim C3: `binaryGet` applied to the 52-byte buffer produced by
`binaryPut` reconstructs exactly the serialized feed, and on any buffer
whose length is not 52 both operations fail with the `ErrInvalidValue`
error naming the expected and actual lengths, leaving the buffer
(respectively the receiver feed) unchanged. -/
theorem feed_serialization_roundtrip (f g : Feed)
    (ht : f.topic.length = TopicLength)
    (hu : f.user.length = AddressLength)
    (hgt : g.topic.length = TopicLength)
    (hgu : g.user.length = AddressLength) :
    binaryGet g (f.topic ++ f.user) = (none, f) ∧
    (∀ buf : List Nat, buf.length = feedLength →
      binaryPut f buf = (none, f.topic ++ f.user)) ∧
    (∀ buf : List Nat, buf.length ≠ feedLength →
      binaryPut f buf = (some (.invalidValue feedLength buf.length), buf) ∧
      binaryGet g buf = (some (.invalidValue feedLength buf.length), g)) := by
  refine ⟨binaryGet_ok f g ht hu hgt hgu,
    fun buf hbuf => binaryPut_ok f buf ht hu hbuf,
    fun buf hbuf => ⟨?_, ?_⟩⟩
  · rw [binaryPut, if_pos hbuf]
  · rw [binaryGet, if_pos hbuf]

/-- Witness for C3 at a concrete feed, receiver and two buffers (one of
the correct length 52, one of length 3). -/
theorem feed_serialization_roundtrip_witness :
    ((⟨List.replicate 32 7, List.replicate 20 9⟩ : Feed).topic.length =
        TopicLength ∧
      (⟨List.replicate 32 7, List.replicate 20 9⟩ : Feed).user.length =
        AddressLength) ∧
    binaryGet ⟨List.replicate 32 1, List.replicate 20 2⟩
        ((⟨List.replicate 32 7, List.replicate 20 9⟩ : Feed).topic ++
          (⟨List.replicate 32 7, List.replicate 20 9⟩ : Feed).user) =
      (none, ⟨List.replicate 32 7, List.replicate 20 9⟩) ∧
    binaryPut ⟨List.replicate 32 7, List.replicate 20 9⟩
        (List.replicate 52 0) =
      (none, (⟨List.replicate 32 7, List.replicate 20 9⟩ : Feed).topic ++
        (⟨List.replicate 32 7, List.replicate 20 9⟩ : Feed).user) ∧
    binaryPut ⟨List.replicate 32 7, List.replicate 20 9⟩ [5, 5, 5] =
      (some (.invalidValue feedLength 3), [5, 5, 5]) ∧
    binaryGet ⟨List.replicate 32 1, List.replicate 20 2⟩ [5, 5, 5] =
      (some (.invalidValue feedLength 3), ⟨List.replicate 32 1,
        List.replicate 20 2⟩) := by
  have h := feed_serialization_roundtrip
    ⟨List.replicate 32 7, List.replicate 20 9⟩
    ⟨List.replicate 32 1, List.replicate 20 2⟩
    (by decide) (by decide) (by decide) (by decide)
  exact ⟨⟨by decide, by decide⟩, h.1,
    h.2.1 (List.replicate 52 0) (by decide),
    (h.2.2 [5, 5, 5] (by decide)).1, (h.2.2 [5, 5, 5] (by decide)).2⟩

theorem take_min_length (l : List Nat) (n : Nat) :
    l.take (min l.length n) = l.take n := by
  rcases Nat.le_total l.length n with h | h
  · rw [Nat.min_eq_left h, List.take_length, List.take_of_length_le h]
  · rw [Nat.min_eq_right h]

/-- Claim C10: `Topic.FromHex` is atomic on error: when the input is not
valid hex or decodes to a length other than 32, it returns the
`ErrInvalidValue` decode error and the receiver keeps exactly its prior
32 bytes; the receiver is written only after both validations
succeed. -/
theorem topic_fromHex_atomic (t h : List Nat)
    (ht : t.length = TopicLength) :
    (hexDecode h = none →
      topicFromHex t h = (some .invalidValueDecode, t)) ∧
    (∀ bs, hexDecode h = some bs → bs.length ≠ TopicLength →
      topicFromHex t h = (some .invalidValueDecode, t)) ∧
    (∀ bs, hexDecode h = some bs → bs.length = TopicLength →
      topicFromHex t h = (none, bs)) := by
  refine ⟨fun hd => ?_, fun bs hd hne => ?_, fun bs hd he => ?_⟩
  · rw [topicFromHex, hd]
  · simp only [topicFromHex, hd]
    rw [if_pos (show bs.length ≠ t.length from by rw [ht]; exact hne)]
  · simp only [topicFromHex, hd]
    rw [if_neg (show ¬ bs.length ≠ t.length from
        fun hx => hx (he.trans ht.symm)),
      goCopy_exact t bs (ht.trans he.symm)]

/-- Witness for C10 at a 32-byte receiver and the two-character hex
input "ab", which decodes to a single byte and so must be rejected with
the receiver unchanged. -/
theorem topic_fromHex_atomic_witness :
    (List.replicate 32 4 : List Nat).length = TopicLength ∧
    hexDecode [97, 98] = some [171] ∧
    topicFromHex (List.replicate 32 4) [97, 98] =
      (some .invalidValueDecode, List.replicate 32 4) :=
  ⟨by decide, by decide,
    (topic_fromHex_atomic (List.replicate 32 4) [97, 98]
      (by decide)).2.1 [171] (by decide) (by decide)⟩

/-- Claim C9: `Address.UnmarshalJSON` is not total: whenever the JSON
layer yields a string whose hex decoding succeeds with fewer than 20
bytes, the slice expression `v[:AddressLength]` is out of range and the
method panics instead of returning an error; its error outcomes arise
only from malformed JSON or invalid hex. -/
theorem unmarshal_short_hex_panics :
    (∀ (J : List Nat → Option (List Nat)) (a data s v : List Nat),
      J data = some s → hexDecode s = some v →
      v.length < AddressLength →
      unmarshalAddressJSON J a data = .panicked) ∧
    (∀ (J : List Nat → Option (List Nat)) (a data : List Nat),
      unmarshalAddressJSON J a data = .err →
      J data = none ∨ ∃ s, J data = some s ∧ hexDecode s = none) := by
  constructor
  · intro J a data s v hJ hv hlt
    simp only [unmarshalAddressJSON, hJ, unmarshalAddressHex, hv]
    rw [if_pos hlt]
  · intro J a data herr
    cases hJ : J data with
    | none => exact Or.inl rfl
    | some s =>
        cases hd : hexDecode s with
        | none => exact Or.inr ⟨s, rfl, hd⟩
        | some v =>
            exfalso
            simp only [unmarshalAddressJSON, hJ, unmarshalAddressHex,
              hd] at herr
            rcases Nat.lt_or_ge v.length AddressLength with hlt | hge
            · rw [if_pos hlt] at herr; cases herr
            · rw [if_neg (Nat.not_lt.mpr hge)] at herr; cases herr

/-- Witness for C9: the JSON layer yields the string "ab", whose hex
decoding is the single byte 0xab, and the method panics. -/
theorem unmarshal_short_hex_panics_witness :
    hexDecode [97, 98] = some [171] ∧
    ([171] : List Nat).length < AddressLength ∧
    unmarshalAddressJSON (fun d => some d) (List.replicate 20 0)
      [97, 98] = .panicked :=
  ⟨by decide, by decide,
    unmarshal_short_hex_panics.1 (fun d => some d) (List.replicate 20 0)
      [97, 98] [97, 98] [171] rfl (by decide) (by decide)⟩

/-- Claim C7: `NewTopic` truncates oversized inputs to 32 bytes and
still returns the topic computed from the truncated inputs; when the
name or a non-nil related content exceeds 32 bytes the advisory
`ErrTopicTooLong` is returned alongside that usable topic (the same
call on the truncated inputs yields no error), and inputs of length at
most 32 produce no error. -/
theorem newTopic_truncates_advisory (name : List Nat)
    (rel : Option (List Nat)) :
    (newTopic name rel).1 =
      (newTopic (name.take TopicLength)
        (rel.map (fun r => r.take TopicLength))).1 ∧
    (newTopic (name.take TopicLength)
      (rel.map (fun r => r.take TopicLength))).2 = none ∧
    (TopicLength < name.length ∨
        (∃ r, rel = some r ∧ TopicLength < r.length) →
      (newTopic name rel).2 = some .topicTooLong) ∧
    (name.length ≤ TopicLength → (rel.getD []).length ≤ TopicLength →
      (newTopic name rel).2 = none) := by
  have hTname : (name.take TopicLength).length ≤ TopicLength := by
    rw [List.length_take]; omega
  have htn : (name.take TopicLength).take
      (min (name.take TopicLength).length TopicLength) =
      name.take TopicLength := by
    rw [take_min_length, List.take_take, Nat.min_self]
  cases rel with
  | none =>
      refine ⟨?_, ?_, ?_, ?_⟩
      · show xorBytes (List.replicate TopicLength 0)
            (List.replicate TopicLength 0)
            (name.take (min name.length TopicLength)) =
          xorBytes (List.replicate TopicLength 0)
            (List.replicate TopicLength 0)
            ((name.take TopicLength).take
              (min (name.take TopicLength).length TopicLength))
        rw [take_min_length, htn]
      · show (if (name.take TopicLength).length > TopicLength
            then some FeedError.topicTooLong else none) = none
        rw [if_neg (by omega)]
      · intro hlong
        have hn : TopicLength < name.length := by
          rcases hlong with hn | ⟨r, hr, _⟩
          · exact hn
          · cases hr
        show (if name.length > TopicLength
            then some FeedError.topicTooLong else none) =
          some FeedError.topicTooLong
        rw [if_pos hn]
      · intro hn _
        show (if name.length > TopicLength
            then some FeedError.topicTooLong else none) = none
        rw [if_neg (by omega)]
  | some r =>
      have hTr : (r.take TopicLength).length ≤ TopicLength := by
        rw [List.length_take]; omega
      have htr : (r.take TopicLength).take
          (min (r.take TopicLength).length TopicLength) =
          r.take TopicLength := by
        rw [take_min_length, List.take_take, Nat.min_self]
      refine ⟨?_, ?_, ?_, ?_⟩
      · show xorBytes
            (goCopy (List.replicate TopicLength 0)
              (r.take (min r.length TopicLength)))
            (goCopy (List.replicate TopicLength 0)
              (r.take (min r.length TopicLength)))
            (name.take (min name.length TopicLength)) =
          xorBytes
            (goCopy (List.replicate TopicLength 0)
              ((r.take TopicLength).take
                (min (r.take TopicLength).length TopicLength)))
            (goCopy (List.replicate TopicLength 0)
              ((r.take TopicLength).take
                (min (r.take TopicLength).length TopicLength)))
            ((name.take TopicLength).take
              (min (name.take TopicLength).length TopicLength))
        rw [take_min_length, take_min_length, htn, htr]
      · show (if (name.take TopicLength).length > TopicLength
            then some FeedError.topicTooLong
            else if (r.take TopicLength).length > TopicLength
              then some FeedError.topicTooLong else none) = none
        rw [if_neg (by omega), if_neg (by omega)]
      · intro hlong
        show (if name.length > TopicLength
            then some FeedError.topicTooLong
            else if r.length > TopicLength
              then some FeedError.topicTooLong else none) =
          some FeedError.topicTooLong
        by_cases hn : name.length > TopicLength
        · rw [if_pos hn]
        · rcases hlong with hx | ⟨r2, hr2, hrl⟩
          · exact absurd hx hn
          · cases hr2
            rw [if_neg hn, if_pos hrl]
      · intro hn hr
        have hr2 : r.length ≤ TopicLength := by simpa using hr
        show (if name.length > TopicLength
            then some FeedError.topicTooLong
            else if r.length > TopicLength
              then some FeedError.topicTooLong else none) = none
        rw [if_neg (by omega), if_neg (by omega)]

/-- Witness for C7 at a 40-byte name (which exceeds 32): the advisory
error is returned. -/
theorem newTopic_truncates_advisory_witness :
    TopicLength < (List.replicate 40 1 : List Nat).length ∧
    (newTopic (List.replicate 40 1) none).2 = some FeedError.topicTooLong :=
  ⟨by decide,
    (newTopic_truncates_advisory (List.replicate 40 1) none).2.2.1
      (Or.inl (by decide))⟩

theorem hexEncode_length (l : List Nat) :
    (hexEncode l).length = 2 * l.length := by
  induction l with
  | nil => rfl
  | cons b bs ih =>
      simp only [hexEncode, List.flatMap_cons] at ih ⊢
      simp only [List.length_append, List.length_cons, List.length_nil, ih]
      omega

theorem hexEncode_char_class (l : List Nat) (hb : ∀ b ∈ l, b < 256) :
    ∀ c ∈ hexEncode l,
      (48 ≤ c ∧ c ≤ 57) ∨ (97 ≤ c ∧ c ≤ 102) := by
  intro c hc
  rw [hexEncode, List.mem_flatMap] at hc
  obtain ⟨b, hbmem, hcmem⟩ := hc
  have hb256 : b < 256 := hb b hbmem
  have hcases : c = hexCharOfNibble (b / 16) ∨ c = hexCharOfNibble (b % 16) := by
    simpa using hcmem
  have hnib : ∀ n : Nat, n < 16 →
      (48 ≤ hexCharOfNibble n ∧ hexCharOfNibble n ≤ 57) ∨
      (97 ≤ hexCharOfNibble n ∧ hexCharOfNibble n ≤ 102) := by
    intro n hn
    by_cases h10 : n < 10
    · rw [hexCharOfNibble, if_pos h10]; left; omega
    · rw [hexCharOfNibble, if_neg h10]; right; omega
  rcases hcases with rfl | rfl
  · exact hnib _ (by omega)
  · exact hnib _ (Nat.mod_lt b (by omega))

/-- The hash nibble selected by the checksum loop for output position
`i`: the high nibble of hash byte `i/2` when `i` is even, its low
nibble when `i` is odd. -/
def checksumNibble (keccak : List Nat → List Nat) (a : List Nat)
    (i : Nat) : Nat :=
  let hashByte := nthByte (keccak (hexEncode a)) (i / 2)
  if i % 2 = 0 then hashByte / 16 else hashByte % 16

theorem addressHex_nthByte (keccak : List Nat → List Nat) (a : List Nat)
    (i : Nat) (hi : i < (hexEncode a).length) :
    nthByte (addressHex keccak a) i =
      if nthByte (hexEncode a) i > 57 ∧ checksumNibble keccak a i > 7
      then nthByte (hexEncode a) i - 32
      else nthByte (hexEncode a) i := by
  rw [addressHex]
  simp only [nthByte, List.getD_eq_getElem?_getD, List.getElem?_map,
    List.getElem?_range hi, Option.map_some', Option.getD_some,
    checksumNibble]

/-- Claim C5: `Address.Hex` lowercase-hex-encodes the 20 raw bytes,
hashes that ASCII string, and for each position `i` whose character is
a letter a-f uppercases it exactly when the selected hash nibble (high
nibble of hash byte `i/2` for even `i`, low nibble for odd `i`) has
value at least 8, while digit characters stay unchanged; every
character is one of the two kinds, and the output has 40 characters.
The embedding is a pure function of the 20 bytes (and the hash
function), so computing it twice gives the same string by
reflexivity. -/
theorem addressHex_checksum (keccak : List Nat → List Nat)
    (a : List Nat) (ha : a.length = AddressLength)
    (hb : ∀ b ∈ a, b < 256) :
    (addressHex keccak a).length = 2 * AddressLength ∧
    (∀ i, i < 2 * AddressLength →
      ((97 ≤ nthByte (hexEncode a) i ∧ nthByte (hexEncode a) i ≤ 102) →
        nthByte (addressHex keccak a) i =
          (if 8 ≤ checksumNibble keccak a i
           then nthByte (hexEncode a) i - 32
           else nthByte (hexEncode a) i)) ∧
      ((48 ≤ nthByte (hexEncode a) i ∧ nthByte (hexEncode a) i ≤ 57) →
        nthByte (addressHex keccak a) i = nthByte (hexEncode a) i) ∧
      ((48 ≤ nthByte (hexEncode a) i ∧ nthByte (hexEncode a) i ≤ 57) ∨
        (97 ≤ nthByte (hexEncode a) i ∧ nthByte (hexEncode a) i ≤ 102))) := by
  have hlen : (hexEncode a).length = 2 * AddressLength := by
    rw [hexEncode_length, ha]
  constructor
  · rw [addressHex]
    simp only [List.length_map, List.length_range, hlen]
  · intro i hi
    have hi' : i < (hexEncode a).length := by omega
    have hmem : nthByte (hexEncode a) i ∈ hexEncode a := by
      rw [nthByte, List.getD_eq_getElem _ _ hi']
      exact List.getElem_mem hi'
    have hclass := hexEncode_char_class a hb _ hmem
    refine ⟨fun hletter => ?_, fun hdigit => ?_, hclass⟩
    · rw [addressHex_nthByte keccak a i hi']
      by_cases hn : 8 ≤ checksumNibble keccak a i
      · rw [if_pos ⟨by omega, hn⟩, if_pos hn]
      · rw [if_neg (fun hx => hn hx.2), if_neg hn]
    · rw [addressHex_nthByte keccak a i hi',
        if_neg (fun hx => by omega)]

/-- Witness for C5 at the 20-byte address of all 0xab bytes and a hash
function returning all 0xff bytes: position 0 holds the letter a and is
uppercased. -/
theorem addressHex_checksum_witness :
    (∀ b ∈ (List.replicate 20 171 : List Nat), b < 256) ∧
    (97 ≤ nthByte (hexEncode (List.replicate 20 171)) 0 ∧
      nthByte (hexEncode (List.replicate 20 171)) 0 ≤ 102) ∧
    nthByte (addressHex (fun _ => List.replicate 32 255)
        (List.replicate 20 171)) 0 =
      (if 8 ≤ checksumNibble (fun _ => List.replicate 32 255)
          (List.replicate 20 171) 0
       then nthByte (hexEncode (List.replicate 20 171)) 0 - 32
       else nthByte (hexEncode (List.replicate 20 171)) 0) :=
  ⟨by decide, by decide,
    ((addressHex_checksum (fun _ => List.replicate 32 255)
        (List.replicate 20 171) (by decide) (by decide)).2 0
      (by decide)).1 (by decide)⟩

/-- Claim C8 (amended): `mapKey` hashes the 52-byte serialization of
the feed and reinterprets the first 8 bytes of the digest as an
unsigned 64-bit integer in the byte order of the machine; the value is
a pure function of the (Topic, User) pair, hence identical for equal
pairs, stable across calls and across processes on machines of the same
byte order — but the native reinterpretation makes it depend on the
byte order, so it is not stable across machines of different
endianness. -/
theorem mapKey_first8_deterministic (byteOrder : List Nat → Nat)
    (hasher : List Nat → List Nat) (f : Feed)
    (ht : f.topic.length = TopicLength)
    (hu : f.user.length = AddressLength) :
    mapKey byteOrder hasher f =
      byteOrder ((hasher (f.topic ++ f.user)).take 8) ∧
    (∀ g : Feed, g.topic = f.topic → g.user = f.user →
      mapKey byteOrder hasher g = mapKey byteOrder hasher f) := by
  constructor
  · simp only [mapKey]
    rw [binaryPut_ok f _ ht hu (by rw [List.length_replicate])]
  · intro g hgt hgu
    cases f with
    | mk ft fu =>
        cases g with
        | mk gt gu =>
            simp only at hgt hgu
            rw [hgt, hgu]

/-- Counterexample for C8 as stated: the same feed and the same hash
function give different `mapKey` values under the little-endian and the
big-endian realization of the unsafe 64-bit reinterpretation, so the
value is not stable across machines of different byte order. -/
theorem mapKey_endianness_counterexample :
    mapKey le64 (fun _ => [1, 0, 0, 0, 0, 0, 0, 0])
        ⟨List.replicate 32 0, List.replicate 20 0⟩ ≠
      mapKey be64 (fun _ => [1, 0, 0, 0, 0, 0, 0, 0])
        ⟨List.replicate 32 0, List.replicate 20 0⟩ := by
  decide

/-- Witness for C8 (amended) at a concrete feed, little-endian order
and the identity hash function. -/
theorem mapKey_first8_deterministic_witness :
    (List.replicate 32 3 : List Nat).length = TopicLength ∧
    mapKey le64 (fun l => l) ⟨List.replicate 32 3, List.replicate 20 4⟩ =
      le64 (((List.replicate 32 3 ++ List.replicate 20 4) : List Nat).take 8) :=
  ⟨by decide,
    (mapKey_first8_deterministic le64 (fun l => l)
      ⟨List.replicate 32 3, List.replicate 20 4⟩
      (by decide) (by decide)).1⟩

/-- Claim C1: for every digest and every signing key for which the
compact library fulfils its contract (`SignCompact` returns a 65-byte
compact signature whose `RecoverCompact` yields the public key of the
key), `Sign` moves the leading recovery byte of the compact signature
to the end — so the signature is r(32), s(32), recovery id(1) —
`Recover` applies the inverse convention and reconstructs exactly the
public key of the signer, and deriving the address from the recovered
key gives the address of the signer key.  The embedding is pure, so
the whole path is deterministic. -/
theorem sign_recover_address (κ π : Type) (L : SecpLib κ π)
    (keccak : List Nat → List Nat) (marshal : π → List Nat)
    (k : κ) (d raw : List Nat)
    (hsig : L.signCompact k d = some raw)
    (hlen : raw.length = 65)
    (hrec : L.recoverCompact raw d = some (L.pubOf k)) :
    Sign L k d = some (raw.drop 1 ++ raw.take 1) ∧
    Recover L (raw.drop 1 ++ raw.take 1) d = .ok (L.pubOf k) ∧
    (Recover L (raw.drop 1 ++ raw.take 1) d).map
        (pubkeyToAddress keccak marshal) =
      .ok (pubkeyToAddress keccak marshal (L.pubOf k)) := by
  have hSign : Sign L k d = some (raw.drop 1 ++ raw.take 1) := by
    simp only [Sign, hsig]
  cases raw with
  | nil => simp at hlen
  | cons r0 rest =>
      have hrest : rest.length = 64 := by
        simp only [List.length_cons] at hlen; omega
      have hsig1 : (r0 :: rest).drop 1 ++ (r0 :: rest).take 1 =
          rest ++ [r0] := rfl
      have hsiglen : (rest ++ [r0]).length = 65 := by
        simp [List.length_append, hrest]
      have hbtc : (rest ++ [r0]).drop 64 ++ (rest ++ [r0]).take 64 =
          r0 :: rest := by
        rw [← hrest, List.drop_left, List.take_left]; rfl
      have hRecover : Recover L ((r0 :: rest).drop 1 ++
          (r0 :: rest).take 1) d = .ok (L.pubOf k) := by
        rw [hsig1, Recover, if_neg (fun hx => hx hsiglen)]
        simp only [hbtc, hrec]
      exact ⟨hSign, hRecover, by rw [hRecover]; rfl⟩

/-- Witness for C1 with a concrete model of the compact library on
natural-number keys: the compact signature of key `k` is the byte
`k` followed by 64 zeros, recovery reads the first byte back. -/
theorem sign_recover_address_witness :
    Sign (⟨fun k _ => some (k :: List.replicate 64 0),
        fun sig _ => some (sig.headD 0), fun k => k⟩ : SecpLib Nat Nat)
        5 [1] =
      some ((5 :: List.replicate 64 0).drop 1 ++
        (5 :: List.replicate 64 0).take 1) ∧
    (Recover (⟨fun k _ => some (k :: List.replicate 64 0),
        fun sig _ => some (sig.headD 0), fun k => k⟩ : SecpLib Nat Nat)
        ((5 :: List.replicate 64 0).drop 1 ++
          (5 :: List.replicate 64 0).take 1) [1]).map
        (pubkeyToAddress (fun l => l) (fun p => [4, p])) =
      .ok (pubkeyToAddress (fun l => l) (fun p => [4, p]) 5) := by
  have h := sign_recover_address Nat Nat
    ⟨fun k _ => some (k :: List.replicate 64 0),
      fun sig _ => some (sig.headD 0), fun k => k⟩
    (fun l => l) (fun p => [4, p]) 5 [1] (5 :: List.replicate 64 0)
    rfl (by decide) rfl
  exact ⟨h.1, h.2.2⟩

/-- Claim C6: `Recover` on any signature whose length is not 65 fails
with the invalid-signature error before any curve work (the result does
not even depend on the curve library), and a recovery attempt that
mathematically fails (the compact recovery returns nothing) also yields
the invalid-signature error. -/
theorem recover_rejects_invalid (κ π : Type) (L L2 : SecpLib κ π)
    (sig d : List Nat) :
    (sig.length ≠ 65 → Recover L sig d = .error .invalidSignature) ∧
    (sig.length ≠ 65 → Recover L sig d = Recover L2 sig d) ∧
    (sig.length = 65 →
      L.recoverCompact (sig.drop 64 ++ sig.take 64) d = none →
      Recover L sig d = .error .invalidSignature) := by
  refine ⟨fun h => ?_, fun h => ?_, fun h65 hnone => ?_⟩
  · rw [Recover, if_pos h]
  · rw [Recover, if_pos h, Recover, if_pos h]
  · rw [Recover, if_neg (fun hx => hx h65)]
    simp only [hnone]

/-- Witness for C6: a 3-byte signature is rejected for any library, and
a 65-byte signature whose compact recovery fails is rejected too. -/
theorem recover_rejects_invalid_witness :
    ([1, 2, 3] : List Nat).length ≠ 65 ∧
    Recover (⟨fun _ _ => none, fun _ _ => none, fun k => k⟩ :
        SecpLib Nat Nat) [1, 2, 3] [0] = .error .invalidSignature ∧
    Recover (⟨fun _ _ => none, fun _ _ => none, fun k => k⟩ :
        SecpLib Nat Nat) (List.replicate 65 9) [0] =
      .error .invalidSignature :=
  ⟨by decide,
    (recover_rejects_invalid Nat Nat
      ⟨fun _ _ => none, fun _ _ => none, fun k => k⟩
      ⟨fun _ _ => none, fun _ _ => none, fun k => k⟩
      [1, 2, 3] [0]).1 (by decide),
    (recover_rejects_invalid Nat Nat
      ⟨fun _ _ => none, fun _ _ => none, fun k => k⟩
      ⟨fun _ _ => none, fun _ _ => none, fun k => k⟩
      (List.replicate 65 9) [0]).2.2 (by decide) rfl⟩

/-- Claim C4: the probe of the lookup returns absent when the fetch
fails, when the content fails to decode, or when the decoded record is
newer than the deadline; it returns the record as a candidate exactly
when decoding succeeds with Time at most the deadline; and a search
that completes with no candidate makes the lookup fail with
`ErrNotFound`. -/
theorem lookup_probe_contract (γ : Type)
    (decode : γ → Option UpdateRequest) (T : Nat) :
    lookupProbe decode T none = none ∧
    (∀ c, decode c = none → lookupProbe decode T (some c) = none) ∧
    (∀ c r, decode c = some r → T < r.time →
      lookupProbe decode T (some c) = none) ∧
    (∀ c r, decode c = some r → r.time ≤ T →
      lookupProbe decode T (some c) = some r) ∧
    lookupFinish none = .error .notFound := by
  refine ⟨rfl, fun c hc => ?_, fun c r hc hT => ?_,
    fun c r hc hT => ?_, rfl⟩
  · simp only [lookupProbe, hc]
  · simp only [lookupProbe, hc]
    rw [if_neg (Nat.not_le.mpr hT)]
  · simp only [lookupProbe, hc]
    rw [if_pos hT]

/-- Witness for C4 with a concrete decoder on natural-number contents:
content 0 fails to decode, content c > 0 decodes to a record with Time
c; the deadline is 25. -/
theorem lookup_probe_contract_witness :
    lookupProbe (fun c : Nat => if c = 0 then none else some ⟨c⟩) 25
        (some 30) = none ∧
    lookupProbe (fun c : Nat => if c = 0 then none else some ⟨c⟩) 25
        (some 20) = some ⟨20⟩ ∧
    lookupProbe (fun c : Nat => if c = 0 then none else some ⟨c⟩) 25
        (some 0) = none ∧
    lookupFinish none = .error .notFound := by
  have h := lookup_probe_contract Nat
    (fun c : Nat => if c = 0 then none else some ⟨c⟩) 25
  exact ⟨h.2.2.1 30 ⟨30⟩ (by decide) (by decide),
    h.2.2.2.1 20 ⟨20⟩ (by decide) (by decide),
    h.2.1 0 (by decide), h.2.2.2.2⟩

end Feeds
